import Mathlib

/-!
Verification development for the MCP (tool server) management layer of the
workbench: the per-resource workspace services, the workspace aggregator
(WorkspaceMcpManagementService), the workbench facade
(WorkbenchMcpManagementService), the prompt resolve errors
(RecursiveReference), and the notebook diff navigation widget
(ChatEditingNotebookEditorWidgetIntegration).

URIs are modelled as strings and the extUri.isEqual comparison of the
uriIdentityService as string equality. Promise-returning methods are
modelled as pure functions from explicit state; a thrown error is an
Except.error value.
-/

/-- URIs are modelled as strings. -/
abbrev URI := String

/-- A locally installed MCP server record (ILocalMcpServer): a name plus the
mcpResource URI of the configuration resource it belongs to. -/
structure LocalMcpServer where
  name : String
  mcpResource : URI
  deriving DecidableEq, Repr

/-- Error kinds thrown by the MCP management layer, one per distinct throw
site message in the source. -/
inductive McpError where
  | illegalTarget
  | mcpResourceRequired
  | noManagementServiceForResource
  | notSupported
  deriving DecidableEq, Repr

/-- The RecursiveReference resolve error data: the uri, the recursive path
and the message built by the constructor. -/
structure RecursiveReference where
  uri : URI
  recursivePath : List String
  message : String
  deriving DecidableEq, Repr

/-- Models the assert helper from base/common/assert.ts: throws the message
when the condition is false. -/
def assertCond (condition : Bool) (msg : String) : Except String Unit :=
  if condition then .ok () else .error msg

/-- The constructor of RecursiveReference: asserts that the recursive path
holds at least two entries, then builds the error object whose message joins
the path with the default join characters. -/
def RecursiveReference.create (uri : URI) (recursivePath : List String) :
    Except String RecursiveReference :=
  match assertCond (decide (2 ≤ recursivePath.length))
      "Recursive path must contain at least two paths" with
  | .error e => .error e
  | .ok _ =>
    .ok { uri := uri, recursivePath := recursivePath,
          message := "Recursive references found: " ++
            String.intercalate " -> " recursivePath ++ "." }

/-- Per-resource workspace service (WorkspaceMcpResourceManagementService):
getInstalled reports the servers persisted under its mcp configuration
resource, each tagged with that resource (getDefaultMcpResource returns the
resource the service was created for). The persisted configuration contents
are abstracted as an environment mapping each resource to the server names
stored in it. -/
def WorkspaceMcpResourceManagementService.getInstalled
    (env : URI → List String) (mcpResource : URI) : List LocalMcpServer :=
  (env mcpResource).map fun name => { name := name, mcpResource := mcpResource }

/-- installFromGallery on the per-resource workspace service throws
Not supported unconditionally. -/
def WorkspaceMcpResourceManagementService.installFromGallery :
    Except McpError LocalMcpServer :=
  .error .notSupported

/-- Mutable state of the workspace aggregator
(WorkspaceMcpManagementService): the merged in-memory list allMcpServers and
the registry mapping each tracked resource to its per-resource service.
Alongside each registry entry the model records the installed set the
aggregator last fetched for that entry (its last-known installed set); the
source keeps this set only implicitly, merged inside allMcpServers. -/
structure WorkspaceState where
  allMcpServers : List LocalMcpServer
  workspaceMcpManagementServices : List (URI × List LocalMcpServer)
  deriving DecidableEq, Repr

/-- Observable actions of the workspace aggregator, listed in emission
order: a batched did-install event, a synthetic did-uninstall event, and
the deletion of a registry entry. -/
inductive WorkspaceAction where
  | didInstall (results : List LocalMcpServer)
  | didUninstall (name : String) (mcpResource : URI)
  | deleteEntry (mcpResource : URI)
  deriving DecidableEq, Repr

/-- Tests whether a resource currently has a registry entry
(workspaceMcpManagementServices.has). -/
def WorkspaceState.registered (s : WorkspaceState) (mcpResource : URI) : Bool :=
  (s.workspaceMcpManagementServices.find? (fun e => e.1 == mcpResource)).isSome

/-- addWorkspaceService: returns at once when the resource is already
registered; otherwise fetches the installed servers of the new per-resource
service (fetchOk is false when that fetch throws, in which case the error is
caught and logged and nothing is merged), appends them to allMcpServers,
fires one batched install event when servers were fetched, and finally
registers the entry. -/
def addWorkspaceService (env : URI → List String) (s : WorkspaceState)
    (mcpResource : URI) (fetchOk : Bool) :
    WorkspaceState × List WorkspaceAction :=
  if s.registered mcpResource then
    (s, [])
  else if fetchOk then
    let installedServers :=
      WorkspaceMcpResourceManagementService.getInstalled env mcpResource
    ({ allMcpServers := s.allMcpServers ++ installedServers,
       workspaceMcpManagementServices :=
         s.workspaceMcpManagementServices ++ [(mcpResource, installedServers)] },
     if installedServers.length > 0 then [.didInstall installedServers] else [])
  else
    ({ allMcpServers := s.allMcpServers,
       workspaceMcpManagementServices :=
         s.workspaceMcpManagementServices ++ [(mcpResource, [])] },
     [])

/-- removeWorkspaceService: when the resource is registered, fetches its
installed servers once more (fetchOk is false when that fetch throws, in
which case the error is caught and logged and nothing is drained), drops
from allMcpServers every server whose mcpResource equals that of a fetched
server, fires one synthetic uninstall event per fetched server, and only
then deletes the registry entry and disposes the service. -/
def removeWorkspaceService (env : URI → List String) (s : WorkspaceState)
    (mcpResource : URI) (fetchOk : Bool) :
    WorkspaceState × List WorkspaceAction :=
  if s.registered mcpResource then
    if fetchOk then
      let installedServers :=
        WorkspaceMcpResourceManagementService.getInstalled env mcpResource
      ({ allMcpServers := s.allMcpServers.filter fun server =>
           !(installedServers.any fun uninstalled =>
             uninstalled.mcpResource == server.mcpResource),
         workspaceMcpManagementServices :=
           s.workspaceMcpManagementServices.filter fun e =>
             !(e.1 == mcpResource) },
       installedServers.map (fun server =>
         .didUninstall server.name server.mcpResource)
         ++ [.deleteEntry mcpResource])
    else
      ({ allMcpServers := s.allMcpServers,
         workspaceMcpManagementServices :=
           s.workspaceMcpManagementServices.filter fun e =>
             !(e.1 == mcpResource) },
       [.deleteEntry mcpResource])
  else
    (s, [])

/-- A workspace folder change as seen by the aggregator: a folder
configuration resource is added or removed, together with whether the
accompanying getInstalled fetch succeeds. -/
inductive FolderEvent where
  | add (mcpResource : URI) (fetchOk : Bool)
  | remove (mcpResource : URI) (fetchOk : Bool)
  deriving DecidableEq, Repr

/-- True unless the event is a removal whose fetch fails. -/
def FolderEvent.removeFetchOk : FolderEvent → Bool
  | .remove _ ok => ok
  | .add _ _ => true

/-- One step of the aggregator state under a folder event. -/
def folderStep (env : URI → List String) (s : WorkspaceState) :
    FolderEvent → WorkspaceState
  | .add r ok => (addWorkspaceService env s r ok).1
  | .remove r ok => (removeWorkspaceService env s r ok).1

/-- The aggregator state after a sequence of folder events, starting from
the empty state the constructor initializes. -/
def runFolderEvents (env : URI → List String) (events : List FolderEvent) :
    WorkspaceState :=
  events.foldl (folderStep env)
    { allMcpServers := [], workspaceMcpManagementServices := [] }

/-- onDidChangeWorkspaceFolders: all removals are settled first, each caught
individually, then all additions are settled, each caught individually. -/
def onDidChangeWorkspaceFolders (env : URI → List String) (s : WorkspaceState)
    (removed added : List (URI × Bool)) : WorkspaceState :=
  added.foldl (fun st p => (addWorkspaceService env st p.1 p.2).1)
    (removed.foldl (fun st p => (removeWorkspaceService env st p.1 p.2).1) s)

/-- getInstalled of the workspace aggregator returns the in-memory merged
list without touching any service. -/
def WorkspaceMcpManagementService.getInstalled (s : WorkspaceState) :
    List LocalMcpServer :=
  s.allMcpServers

/-- Install options handed to the workspace aggregator. -/
structure InstallOptions where
  mcpResource : Option URI
  deriving DecidableEq, Repr

/-- install of the workspace aggregator: throws when options.mcpResource is
unset, throws when no registry entry exists for it, and otherwise delegates
to the matching per-resource service (svcInstall) returning its result
unmodified. The returned state component is the input state untouched: the
method performs no mutation on any path. -/
def WorkspaceMcpManagementService.install
    (svcInstall : URI → String → Except McpError LocalMcpServer)
    (s : WorkspaceState) (server : String) (options : Option InstallOptions) :
    Except McpError LocalMcpServer × WorkspaceState :=
  match options.bind (fun o => o.mcpResource) with
  | none => (.error .mcpResourceRequired, s)
  | some mcpResource =>
    if s.registered mcpResource then
      (svcInstall mcpResource server, s)
    else
      (.error .noManagementServiceForResource, s)

/-- installFromGallery on the workspace aggregator throws Not supported
unconditionally; the state is untouched. -/
def WorkspaceMcpManagementService.installFromGallery (s : WorkspaceState) :
    Except McpError LocalMcpServer × WorkspaceState :=
  (.error .notSupported, s)

/-- The scope tag attached at the workbench facade layer
(LocalMcpServerScope). -/
inductive LocalMcpServerScope where
  | user
  | remoteUser
  | workspace
  deriving DecidableEq, Repr

/-- A server as returned by the workbench facade
(IWorkbenchLocalMcpServer): the underlying record with the scope tag set. -/
structure WorkbenchLocalMcpServer where
  name : String
  mcpResource : URI
  scope : LocalMcpServerScope
  deriving DecidableEq, Repr

/-- toWorkspaceMcpServer of the facade: spreads the server record and sets
the scope field to the given scope, so the result carries exactly that one
scope tag. -/
def toWorkspaceMcpServer (server : LocalMcpServer) (scope : LocalMcpServerScope) :
    WorkbenchLocalMcpServer :=
  { name := server.name, mcpResource := server.mcpResource, scope := scope }

/-- getInstalled of the workbench facade: awaits the three scope queries
(the remote list is none when no remote connection exists, in which case an
empty list is used), then pushes the user servers, the remote servers and
the workspace servers in that order, each tagged with its originating
scope. -/
def WorkbenchMcpManagementService.getInstalled
    (userServers : List LocalMcpServer)
    (remoteServers : Option (List LocalMcpServer))
    (workspaceServers : List LocalMcpServer) : List WorkbenchLocalMcpServer :=
  let installed : List WorkbenchLocalMcpServer := []
  let installed := userServers.foldl
    (fun acc server => acc ++ [toWorkspaceMcpServer server .user]) installed
  let installed := (remoteServers.getD []).foldl
    (fun acc server => acc ++ [toWorkspaceMcpServer server .remoteUser]) installed
  workspaceServers.foldl
    (fun acc server => acc ++ [toWorkspaceMcpServer server .workspace]) installed

/-- Payload of a single install or uninstall event
(InstallMcpServerEvent, UninstallMcpServerEvent, DidUninstallMcpServerEvent). -/
structure McpServerEvent where
  name : String
  mcpResource : URI
  deriving DecidableEq, Repr

/-- One entry of a batched did-install event coming from an underlying
service (InstallMcpServerResult); the field named local in the source is
called localServer here. -/
structure InstallMcpServerResult where
  name : String
  mcpResource : URI
  localServer : Option LocalMcpServer
  deriving DecidableEq, Repr

/-- One entry of a batched did-install event as re-emitted by the facade
(IWorkbenchMcpServerInstallResult): the local record is scope tagged. -/
structure WorkbenchInstallResult where
  name : String
  mcpResource : URI
  localServer : Option WorkbenchLocalMcpServer
  deriving DecidableEq, Repr

/-- Builds the workbench result for one batch entry: spreads the result and
tags its local record with the given scope when present. -/
def tagInstallResult (result : InstallMcpServerResult)
    (scope : LocalMcpServerScope) : WorkbenchInstallResult :=
  { name := result.name, mcpResource := result.mcpResource,
    localServer := result.localServer.map (fun l => toWorkspaceMcpServer l scope) }

/-- Wiring of a single install event from the user scope service: the pair
lists the firings of the all-scopes stream and of the current-profile
stream. The event is re-fired verbatim on the all-scopes stream, and on the
current-profile stream exactly when its mcpResource equals the current
profile mcpResource. -/
def userOnInstallMcpServer (currentProfileMcpResource : URI)
    (e : McpServerEvent) : List McpServerEvent × List McpServerEvent :=
  ([e], if e.mcpResource == currentProfileMcpResource then [e] else [])

/-- Wiring of a single uninstall event from the user scope service, same
shape as the install wiring. -/
def userOnUninstallMcpServer (currentProfileMcpResource : URI)
    (e : McpServerEvent) : List McpServerEvent × List McpServerEvent :=
  ([e], if e.mcpResource == currentProfileMcpResource then [e] else [])

/-- Wiring of a single did-uninstall event from the user scope service,
same shape as the install wiring. -/
def userOnDidUninstallMcpServer (currentProfileMcpResource : URI)
    (e : McpServerEvent) : List McpServerEvent × List McpServerEvent :=
  ([e], if e.mcpResource == currentProfileMcpResource then [e] else [])

/-- Wiring of a batched did-install event from the user scope service: one
loop builds the full tagged list and the sub-list whose entries match the
current profile resource; the full list is fired once on the all-scopes
stream and the sub-list on the current-profile stream when nonempty. -/
def userOnDidInstallMcpServers (currentProfileMcpResource : URI)
    (e : List InstallMcpServerResult) :
    List (List WorkbenchInstallResult) × List (List WorkbenchInstallResult) :=
  let pair := e.foldl
    (fun (acc : List WorkbenchInstallResult × List WorkbenchInstallResult)
        result =>
      let workbenchResult := tagInstallResult result .user
      (acc.1 ++ [workbenchResult],
       if result.mcpResource == currentProfileMcpResource then
         acc.2 ++ [workbenchResult]
       else acc.2))
    ([], [])
  ([pair.1], if pair.2.length > 0 then [pair.2] else [])

/-- Wiring of a single install event from the workspace scope service: the
source fires the all-scopes emitter and then the current-profile emitter
unconditionally, without comparing the event resource to the current
profile resource. -/
def workspaceOnInstallMcpServer (e : McpServerEvent) :
    List McpServerEvent × List McpServerEvent :=
  ([e], [e])

/-- Wiring of a batched did-install event from the workspace scope service:
the source builds the workspace-tagged list and then fires the
current-profile emitter with it twice in a row; the all-scopes
did-install emitter is never fired on this path. -/
def workspaceOnDidInstallMcpServers (e : List InstallMcpServerResult) :
    List (List WorkbenchInstallResult) × List (List WorkbenchInstallResult) :=
  let mcpServerInstallResult := e.foldl
    (fun acc result => acc ++ [tagInstallResult result .workspace]) []
  ([], [mcpServerInstallResult, mcpServerInstallResult])

/-- Wiring of a single uninstall event from the workspace scope service:
fired on both streams unconditionally. -/
def workspaceOnUninstallMcpServer (e : McpServerEvent) :
    List McpServerEvent × List McpServerEvent :=
  ([e], [e])

/-- Wiring of a single did-uninstall event from the workspace scope
service: fired on both streams unconditionally. -/
def workspaceOnDidUninstallMcpServer (e : McpServerEvent) :
    List McpServerEvent × List McpServerEvent :=
  ([e], [e])

/-- ConfigurationTarget values a caller can pass as an install target. -/
inductive ConfigurationTarget where
  | application
  | user
  | userLocal
  | userRemote
  | workspace
  | workspaceFolder
  | defaultTarget
  | memory
  deriving DecidableEq, Repr

/-- A workspace folder, reduced to the mcp configuration resource its
toResource call produces. -/
structure WorkspaceFolder where
  mcpConfigResource : URI
  deriving DecidableEq, Repr

/-- The target field of the facade install options: either a
ConfigurationTarget value or a workspace folder object. -/
inductive InstallTarget where
  | config (target : ConfigurationTarget)
  | folder (f : WorkspaceFolder)
  deriving DecidableEq, Repr

/-- Install options handed to the facade (IWorkbencMcpServerInstallOptions). -/
structure WorkbenchInstallOptions where
  target : Option InstallTarget
  mcpResource : Option URI
  deriving DecidableEq, Repr

/-- Which underlying scope service an install call is delegated to. -/
inductive DelegatedService where
  | userService
  | remoteService
  | workspaceService
  deriving DecidableEq, Repr

/-- A successful routing decision of the facade install: the delegated
service together with the mcpResource set on the options before the
delegation. An Except.error result means the call threw before any
underlying install was invoked. -/
structure DelegatedInstall where
  service : DelegatedService
  mcpResource : Option URI
  deriving DecidableEq, Repr

/-- install of the workbench facade: routes on options.target. A workspace
or folder target resolves the workspace configuration resource or the
folder mcp configuration resource, throwing Illegal target when the
workspace has no configuration. A remote-user target throws Illegal target
when no remote connection exists, and otherwise delegates with the resolved
remote counterpart resource (getRemoteMcpResource). Other set targets apart
from user and local-user throw Illegal target. Otherwise the local user
service is delegated to with the current profile resource. -/
def WorkbenchMcpManagementService.install (hasRemote : Bool)
    (workspaceConfiguration : Option URI) (currentProfileMcpResource : URI)
    (getRemoteMcpResource : Option URI → Option URI)
    (options : Option WorkbenchInstallOptions) :
    Except McpError DelegatedInstall :=
  let opts := options.getD { target := none, mcpResource := none }
  match opts.target with
  | some (.config .workspace) =>
    match workspaceConfiguration with
    | none => .error .illegalTarget
    | some mcpResource =>
      .ok { service := .workspaceService, mcpResource := some mcpResource }
  | some (.folder f) =>
    .ok { service := .workspaceService, mcpResource := some f.mcpConfigResource }
  | some (.config .userRemote) =>
    if hasRemote then
      .ok { service := .remoteService,
            mcpResource := getRemoteMcpResource opts.mcpResource }
    else
      .error .illegalTarget
  | some (.config .user) =>
    .ok { service := .userService, mcpResource := some currentProfileMcpResource }
  | some (.config .userLocal) =>
    .ok { service := .userService, mcpResource := some currentProfileMcpResource }
  | none =>
    .ok { service := .userService, mcpResource := some currentProfileMcpResource }
  | some (.config _) => .error .illegalTarget

/-- Kind of a per-cell change descriptor (ICellDiffInfo.type). -/
inductive CellChangeType where
  | insert
  | delete
  | modified
  | unchanged
  deriving DecidableEq, Repr

/-- A per-cell change descriptor: an identity (standing for the object
identity indexOf compares by), its type, and for modified cells the number
of line-level hunks its observable diff currently holds
(diff.get().changes.length). -/
structure CellDiffInfo where
  id : Nat
  type : CellChangeType
  hunkCount : Nat
  deriving DecidableEq, Repr

/-- lastChangeIndex helper of the widget: the index of the last hunk of a
modified cell, 0 for every other change type. -/
def lastChangeIndex (change : CellDiffInfo) : Int :=
  if change.type = .modified then (change.hunkCount : Int) - 1 else 0

/-- The current navigation position (the currentChange observable): the
change object together with the hunk index inside it. -/
structure CurrentChange where
  change : CellDiffInfo
  index : Int
  deriving DecidableEq, Repr

/-- Navigation state of ChatEditingNotebookEditorWidgetIntegration: the
cell changes in the order sortCellChanges produces (the sorting itself
lives in notebookCellChanges.ts, outside this slice: the list is taken
already sorted), plus the currentChange observable. The embedding models
the configuration in which no cell editor is attached (getCell returns
undefined on every cell) and the notebook view model is available, so that
reveals through getCellViewModel succeed. -/
structure NavState where
  cellChanges : List CellDiffInfo
  currentChange : Option CurrentChange
  deriving DecidableEq, Repr

/-- The sorted list of changes the navigation walks, with unchanged entries
filtered out as in the source of next and previous. -/
def sortedNonUnchanged (s : NavState) : List CellDiffInfo :=
  s.cellChanges.filter fun c => !(c.type == .unchanged)

/-- JavaScript Array.indexOf: the index of the change in the list, -1 when
absent. -/
def indexOfChange (changes : List CellDiffInfo) (c : CellDiffInfo) : Int :=
  match changes.findIdx? (fun x => x == c) with
  | some i => (i : Int)
  | none => -1

/-- JavaScript array indexing: undefined for a negative or out-of-range
index. -/
def listAt (changes : List CellDiffInfo) (i : Int) : Option CellDiffInfo :=
  if i < 0 then none else changes.get? i.toNat

/-- revealChange of the widget: for insert and modified changes records the
change and the hunk index as current and reports success (the view model
reveal is modelled as available); for delete changes reveals the deleted
cell decorator at hunk index 0. -/
def revealChange (s : NavState) (change : CellDiffInfo) (indexInCell : Int) :
    Bool × NavState :=
  match change.type with
  | .insert => (true, { s with currentChange := some ⟨change, indexInCell⟩ })
  | .modified => (true, { s with currentChange := some ⟨change, indexInCell⟩ })
  | .delete => (true, { s with currentChange := some ⟨change, 0⟩ })
  | .unchanged => (false, s)

/-- revealFirstOrLast of the widget: for insert and modified changes picks
hunk index 0 when revealing the first position or when the change is an
insert, and the last hunk otherwise; with no cell editor attached this
falls through to revealChange. Delete changes reveal the deleted cell
decorator. -/
def revealFirstOrLast (s : NavState) (change : CellDiffInfo)
    (firstOrLast : Bool) : Bool × NavState :=
  match change.type with
  | .insert =>
    revealChange s change 0
  | .modified =>
    let index : Int :=
      if firstOrLast then 0 else (change.hunkCount : Int) - 1
    revealChange s change index
  | .delete => (true, { s with currentChange := some ⟨change, 0⟩ })
  | .unchanged => (false, s)

/-- Body shared by next with and without wrap: onExhausted is the value the
source produces when the switch falls through with no further change to go
to. -/
def nextBody (s : NavState) (onExhausted : Bool × NavState) :
    Bool × NavState :=
  let changes := sortedNonUnchanged s
  match s.currentChange with
  | none =>
    match changes.head? with
    | some firstChange => revealFirstOrLast s firstChange true
    | none => (false, s)
  | some currentChange =>
    match currentChange.change.type with
    | .modified =>
      let isLastChangeInCell :=
        currentChange.index == lastChangeIndex currentChange.change
      let index : Int := if isLastChangeInCell then 0 else currentChange.index + 1
      let change := if isLastChangeInCell then
          listAt changes (indexOfChange changes currentChange.change + 1)
        else some currentChange.change
      match change with
      | some c => revealChange s c index
      | none => onExhausted
    | .insert =>
      match listAt changes (indexOfChange changes currentChange.change + 1) with
      | some nextChange => revealFirstOrLast s nextChange true
      | none => onExhausted
    | .delete =>
      match listAt changes (indexOfChange changes currentChange.change + 1) with
      | some nextChange => revealFirstOrLast s nextChange true
      | none => onExhausted
    | .unchanged => onExhausted

/-- next(false) of the widget: on exhaustion returns false with the state
untouched. -/
def nextNoWrap (s : NavState) : Bool × NavState :=
  nextBody s (false, s)

/-- next(wrap) of the widget: on exhaustion the source returns
this.next(false), evaluated on the same unchanged state; without wrap it
returns false. -/
def ChatEditingNotebookEditorWidgetIntegration.next (wrap : Bool)
    (s : NavState) : Bool × NavState :=
  nextBody s (if wrap then nextNoWrap s else (false, s))

/-- Body shared by previous with and without wrap. -/
def previousBody (s : NavState) (onExhausted : Bool × NavState) :
    Bool × NavState :=
  let changes := sortedNonUnchanged s
  match s.currentChange with
  | none =>
    match changes.getLast? with
    | some lastChange => revealFirstOrLast s lastChange false
    | none => (false, s)
  | some currentChange =>
    match currentChange.change.type with
    | .modified =>
      let isFirstChangeInCell := currentChange.index == 0
      let change := if isFirstChangeInCell then
          listAt changes (indexOfChange changes currentChange.change - 1)
        else some currentChange.change
      match change with
      | some c =>
        let index : Int := if isFirstChangeInCell then lastChangeIndex c
          else currentChange.index - 1
        revealChange s c index
      | none => onExhausted
    | .insert =>
      match listAt changes (indexOfChange changes currentChange.change - 1) with
      | some prevChange => revealFirstOrLast s prevChange false
      | none => onExhausted
    | .delete =>
      match listAt changes (indexOfChange changes currentChange.change - 1) with
      | some prevChange => revealFirstOrLast s prevChange false
      | none => onExhausted
    | .unchanged => onExhausted

/-- previous(wrap) of the widget: on exhaustion the source reveals the last
change of the sorted sequence when wrap is set, and returns false
otherwise. -/
def ChatEditingNotebookEditorWidgetIntegration.previous (wrap : Bool)
    (s : NavState) : Bool × NavState :=
  previousBody s
    (if wrap then
      match (sortedNonUnchanged s).getLast? with
      | some lastChange => revealFirstOrLast s lastChange false
      | none => (false, s)
    else (false, s))

/-- The identity of an aggregate list entry: its (mcpResource, name) pair. -/
def serverKey (sv : LocalMcpServer) : URI × String :=
  (sv.mcpResource, sv.name)

/-- Invariant of the workspace aggregator state relative to the persisted
environment: the merged list is the concatenation of the registry entries
last-known sets, the registry keys are pairwise distinct, and every
last-known set is either empty (a fetch had failed) or the set the
per-resource service reports. -/
def WorkspaceInv (env : URI → List String) (s : WorkspaceState) : Prop :=
  s.allMcpServers = s.workspaceMcpManagementServices.flatMap (fun e => e.2) ∧
  (s.workspaceMcpManagementServices.map (fun e => e.1)).Nodup ∧
  ∀ e ∈ s.workspaceMcpManagementServices,
    e.2 = [] ∨ e.2 = WorkspaceMcpResourceManagementService.getInstalled env e.1

/-- Folding a push of mapped elements is appending the mapped list. -/
theorem mcpFoldlPush {α β : Type} (f : α → β) (l : List α) (init : List β) :
    l.foldl (fun acc x => acc ++ [f x]) init = init ++ l.map f := by
  induction l generalizing init with
  | nil => simp
  | cons a t ih => simp [List.foldl_cons, ih]

/-- C10: a RecursiveReference is constructible exactly when its recursive
path holds at least two entries; the constructor assertion throws on a path
of length 0 or 1, so every successfully constructed value has a path of
length at least two. -/
theorem recursiveReference_create_isOk (uri : URI) (recursivePath : List String) :
    (RecursiveReference.create uri recursivePath).isOk =
      decide (2 ≤ recursivePath.length) := by
  unfold RecursiveReference.create assertCond
  by_cases h : 2 ≤ recursivePath.length <;> simp [h, Except.isOk, Except.toBool]

/-- C9: installFromGallery on the per-resource workspace service and on the
workspace aggregator always throws Not supported, and the aggregator state
is returned untouched. -/
theorem workspaceInstallFromGallery_notSupported (s : WorkspaceState) :
    WorkspaceMcpResourceManagementService.installFromGallery =
      (Except.error McpError.notSupported : Except McpError LocalMcpServer) ∧
    WorkspaceMcpManagementService.installFromGallery s =
      (Except.error McpError.notSupported, s) :=
  ⟨rfl, rfl⟩

/-- C3: the facade getInstalled result is the concatenation, in the order
user then remote then workspace, of the three scope results mapped through
the scope tagging (the remote part empty when no remote connection exists),
and every entry of each part carries exactly the scope tag of the service
it came from. -/
theorem workbenchGetInstalled_concat_and_scopes
    (userServers : List LocalMcpServer)
    (remoteServers : Option (List LocalMcpServer))
    (workspaceServers : List LocalMcpServer) :
    WorkbenchMcpManagementService.getInstalled userServers remoteServers
        workspaceServers =
      userServers.map (fun sv => toWorkspaceMcpServer sv .user) ++
        (remoteServers.getD []).map (fun sv => toWorkspaceMcpServer sv .remoteUser) ++
        workspaceServers.map (fun sv => toWorkspaceMcpServer sv .workspace) ∧
    (∀ sv ∈ userServers.map (fun sv => toWorkspaceMcpServer sv .user),
      sv.scope = .user) ∧
    (∀ sv ∈ (remoteServers.getD []).map (fun sv => toWorkspaceMcpServer sv .remoteUser),
      sv.scope = .remoteUser) ∧
    (∀ sv ∈ workspaceServers.map (fun sv => toWorkspaceMcpServer sv .workspace),
      sv.scope = .workspace) := by
  refine ⟨?_, ?_, ?_, ?_⟩
  · unfold WorkbenchMcpManagementService.getInstalled
    rw [mcpFoldlPush, mcpFoldlPush, mcpFoldlPush]
    simp
  · intro sv hsv
    rcases List.mem_map.1 hsv with ⟨x, _, rfl⟩
    rfl
  · intro sv hsv
    rcases List.mem_map.1 hsv with ⟨x, _, rfl⟩
    rfl
  · intro sv hsv
    rcases List.mem_map.1 hsv with ⟨x, _, rfl⟩
    rfl

/-- C4 (evaluation at the failing input): for a workspace batched install
event with one result, the facade wiring fires the all-scopes did-install
stream zero times and the current-profile stream twice, where the claim
demands exactly one firing on the all-scopes stream and a current-profile
firing only when the event resource equals the current profile resource. -/
theorem workspaceDidInstallWiring_eval :
    (workspaceOnDidInstallMcpServers
        [⟨"a", "/ws/.vscode/mcp.json",
          some ⟨"a", "/ws/.vscode/mcp.json"⟩⟩]).1.length = 0 ∧
    (workspaceOnDidInstallMcpServers
        [⟨"a", "/ws/.vscode/mcp.json",
          some ⟨"a", "/ws/.vscode/mcp.json"⟩⟩]).2.length = 2 :=
  ⟨rfl, rfl⟩

/-- C6: installing with the remote-user target while no remote connection
exists throws Illegal target; the error result means the routing threw
before delegating, so no underlying service install is invoked. -/
theorem workbenchInstall_remoteTarget_noRemote
    (workspaceConfiguration : Option URI) (currentProfileMcpResource : URI)
    (getRemoteMcpResource : Option URI → Option URI)
    (options : WorkbenchInstallOptions)
    (h : options.target = some (.config .userRemote)) :
    WorkbenchMcpManagementService.install false workspaceConfiguration
        currentProfileMcpResource getRemoteMcpResource (some options) =
      .error .illegalTarget := by
  unfold WorkbenchMcpManagementService.install
  simp [Option.getD, h]

/-- C6 witness: the remote-target rejection at a concrete input. -/
theorem workbenchInstall_remoteTarget_noRemote_witness :
    WorkbenchMcpManagementService.install false none "/user/mcp.json"
        (fun _ => none)
        (some { target := some (.config .userRemote), mcpResource := none }) =
      .error .illegalTarget :=
  workbenchInstall_remoteTarget_noRemote none "/user/mcp.json" (fun _ => none)
    { target := some (.config .userRemote), mcpResource := none } rfl

/-- C8 (evaluation at the failing input): with a sorted sequence of two
insert changes and the current change at the last one, next with wrap
returns false and leaves the position untouched instead of cycling back to
the first change, while previous with wrap at the first change does cycle
to the last change, as the claim demands for both directions. -/
theorem notebookNext_wrap_eval :
    ChatEditingNotebookEditorWidgetIntegration.next true
        { cellChanges := [⟨0, .insert, 1⟩, ⟨1, .insert, 1⟩],
          currentChange := some ⟨⟨1, .insert, 1⟩, 0⟩ } =
      (false,
        { cellChanges := [⟨0, .insert, 1⟩, ⟨1, .insert, 1⟩],
          currentChange := some ⟨⟨1, .insert, 1⟩, 0⟩ }) ∧
    ChatEditingNotebookEditorWidgetIntegration.previous true
        { cellChanges := [⟨0, .insert, 1⟩, ⟨1, .insert, 1⟩],
          currentChange := some ⟨⟨0, .insert, 1⟩, 0⟩ } =
      (true,
        { cellChanges := [⟨0, .insert, 1⟩, ⟨1, .insert, 1⟩],
          currentChange := some ⟨⟨1, .insert, 1⟩, 0⟩ }) := by
  exact ⟨by decide, by decide⟩

/-- Registration holds exactly when the registry holds an entry keyed by
the resource. -/
theorem mcpRegistered_iff (s : WorkspaceState) (x : URI) :
    s.registered x = true ↔
      ∃ l, (x, l) ∈ s.workspaceMcpManagementServices := by
  unfold WorkspaceState.registered
  rw [List.find?_isSome]
  constructor
  · rintro ⟨⟨k, l⟩, he, hp⟩
    simp only [beq_iff_eq] at hp
    subst hp
    exact ⟨l, he⟩
  · rintro ⟨l, hl⟩
    exact ⟨(x, l), hl, by simp⟩

/-- Registry of the state addWorkspaceService produces. -/
theorem mcpAdd_services (env : URI → List String) (s : WorkspaceState)
    (r : URI) (ok : Bool) :
    (addWorkspaceService env s r ok).1.workspaceMcpManagementServices =
      if s.registered r then s.workspaceMcpManagementServices
      else s.workspaceMcpManagementServices ++
        [(r, if ok then WorkspaceMcpResourceManagementService.getInstalled env r
             else [])] := by
  unfold addWorkspaceService
  by_cases h : s.registered r = true
  · rw [if_pos h, if_pos h]
  · rw [if_neg h, if_neg h]
    cases ok
    · simp
    · simp

/-- Registry of the state removeWorkspaceService produces. -/
theorem mcpRemove_services (env : URI → List String) (s : WorkspaceState)
    (r : URI) (ok : Bool) :
    (removeWorkspaceService env s r ok).1.workspaceMcpManagementServices =
      if s.registered r then
        s.workspaceMcpManagementServices.filter (fun e => !(e.1 == r))
      else s.workspaceMcpManagementServices := by
  unfold removeWorkspaceService
  by_cases h : s.registered r = true
  · rw [if_pos h, if_pos h]
    cases ok
    · simp
    · simp
  · rw [if_neg h, if_neg h]

/-- A failing add merges nothing into the aggregate list. -/
theorem mcpAdd_allMcpServers_fail (env : URI → List String)
    (s : WorkspaceState) (r : URI) :
    (addWorkspaceService env s r false).1.allMcpServers = s.allMcpServers := by
  unfold addWorkspaceService
  by_cases h : s.registered r = true <;> simp [h]

/-- A failing add emits no event. -/
theorem mcpAdd_actions_fail (env : URI → List String)
    (s : WorkspaceState) (r : URI) :
    (addWorkspaceService env s r false).2 = [] := by
  unfold addWorkspaceService
  by_cases h : s.registered r = true <;> simp [h]

/-- A failing remove drains nothing from the aggregate list. -/
theorem mcpRemove_allMcpServers_fail (env : URI → List String)
    (s : WorkspaceState) (r : URI) :
    (removeWorkspaceService env s r false).1.allMcpServers =
      s.allMcpServers := by
  unfold removeWorkspaceService
  by_cases h : s.registered r = true <;> simp [h]

/-- Registration after addWorkspaceService: the added resource joins the
previously registered ones. -/
theorem mcpRegistered_add (env : URI → List String) (s : WorkspaceState)
    (r : URI) (ok : Bool) (x : URI) :
    (addWorkspaceService env s r ok).1.registered x = true ↔
      (s.registered x = true ∨ x = r) := by
  rw [mcpRegistered_iff, mcpAdd_services]
  by_cases h : s.registered r = true
  · rw [if_pos h, ← mcpRegistered_iff]
    constructor
    · exact fun hx => Or.inl hx
    · rintro (hx | rfl)
      · exact hx
      · exact h
  · rw [if_neg h]
    constructor
    · rintro ⟨l, hl⟩
      rcases List.mem_append.1 hl with hmem | hmem
      · exact Or.inl ((mcpRegistered_iff s x).2 ⟨l, hmem⟩)
      · simp only [List.mem_singleton, Prod.mk.injEq] at hmem
        exact Or.inr hmem.1
    · rintro (hx | rfl)
      · rcases (mcpRegistered_iff s x).1 hx with ⟨l, hl⟩
        exact ⟨l, List.mem_append.2 (Or.inl hl)⟩
      · exact ⟨(if ok then WorkspaceMcpResourceManagementService.getInstalled env x
            else []), List.mem_append.2 (Or.inr (by simp))⟩

/-- Registration after removeWorkspaceService: the removed resource leaves,
every other resource is untouched. -/
theorem mcpRegistered_remove (env : URI → List String) (s : WorkspaceState)
    (r : URI) (ok : Bool) (x : URI) :
    (removeWorkspaceService env s r ok).1.registered x = true ↔
      (s.registered x = true ∧ x ≠ r) := by
  rw [mcpRegistered_iff, mcpRemove_services]
  by_cases h : s.registered r = true
  · rw [if_pos h]
    constructor
    · rintro ⟨l, hl⟩
      rcases List.mem_filter.1 hl with ⟨hmem, hq⟩
      simp only [Bool.not_eq_eq_eq_not, Bool.not_true, beq_eq_false_iff_ne] at hq
      exact ⟨(mcpRegistered_iff s x).2 ⟨l, hmem⟩, hq⟩
    · rintro ⟨hx, hne⟩
      rcases (mcpRegistered_iff s x).1 hx with ⟨l, hl⟩
      exact ⟨l, List.mem_filter.2 ⟨hl, by simpa using hne⟩⟩
  · rw [if_neg h, ← mcpRegistered_iff]
    constructor
    · intro hx
      refine ⟨hx, ?_⟩
      rintro rfl
      exact h hx
    · exact fun hx => hx.1

/-- Registration after the removal fold of a folder-change batch. -/
theorem mcpRemoveFold_registered (env : URI → List String)
    (l : List (URI × Bool)) (s : WorkspaceState) (x : URI) :
    ((l.foldl (fun st p => (removeWorkspaceService env st p.1 p.2).1)
        s).registered x = true) ↔
      (s.registered x = true ∧ x ∉ l.map Prod.fst) := by
  induction l generalizing s with
  | nil => simp
  | cons a t ih =>
    simp only [List.foldl_cons, List.map_cons, List.mem_cons]
    rw [ih, mcpRegistered_remove]
    tauto

/-- Registration after the addition fold of a folder-change batch. -/
theorem mcpAddFold_registered (env : URI → List String)
    (l : List (URI × Bool)) (s : WorkspaceState) (x : URI) :
    ((l.foldl (fun st p => (addWorkspaceService env st p.1 p.2).1)
        s).registered x = true) ↔
      (s.registered x = true ∨ x ∈ l.map Prod.fst) := by
  induction l generalizing s with
  | nil => simp
  | cons a t ih =>
    simp only [List.foldl_cons, List.map_cons, List.mem_cons]
    rw [ih, mcpRegistered_add]
    tauto

/-- C2: removing a registered resource whose removal-time fetch succeeds
and reports K installed servers emits exactly K synthetic uninstall
events, one per reported server in report order, all of them before the
deletion of the registry entry. -/
theorem removeWorkspaceService_uninstallEvents (env : URI → List String)
    (s : WorkspaceState) (mcpResource : URI)
    (h : s.registered mcpResource = true) :
    (removeWorkspaceService env s mcpResource true).2 =
      ((env mcpResource).map fun n => WorkspaceAction.didUninstall n mcpResource)
        ++ [WorkspaceAction.deleteEntry mcpResource] := by
  unfold removeWorkspaceService
  simp [h, WorkspaceMcpResourceManagementService.getInstalled, List.map_map]

/-- C2 witness: removing a resource with two reported servers emits the
two uninstall events and then the entry deletion. -/
theorem removeWorkspaceService_uninstallEvents_witness :
    (removeWorkspaceService (fun _ => ["a", "b"])
        { allMcpServers := [⟨"a", "R"⟩, ⟨"b", "R"⟩],
          workspaceMcpManagementServices := [("R", [⟨"a", "R"⟩, ⟨"b", "R"⟩])] }
        "R" true).2 =
      [WorkspaceAction.didUninstall "a" "R",
       WorkspaceAction.didUninstall "b" "R",
       WorkspaceAction.deleteEntry "R"] := by
  have h := removeWorkspaceService_uninstallEvents (fun _ => ["a", "b"])
    { allMcpServers := [⟨"a", "R"⟩, ⟨"b", "R"⟩],
      workspaceMcpManagementServices := [("R", [⟨"a", "R"⟩, ⟨"b", "R"⟩])] }
    "R" (by decide)
  simpa using h

/-- C5: the workspace aggregator install never mutates its state; with the
mcpResource option unset it throws the resource-required configuration
error, with an unregistered resource it throws the
no-management-service-found configuration error, and with a registered
resource it returns the delegated per-resource install result unmodified. -/
theorem workspaceInstall_routing
    (svcInstall : URI → String → Except McpError LocalMcpServer)
    (s : WorkspaceState) (server : String) (options : Option InstallOptions) :
    (WorkspaceMcpManagementService.install svcInstall s server options).2 = s ∧
    (options.bind (fun o => o.mcpResource) = none →
      (WorkspaceMcpManagementService.install svcInstall s server options).1 =
        .error .mcpResourceRequired) ∧
    (∀ r, options.bind (fun o => o.mcpResource) = some r →
      s.registered r = false →
      (WorkspaceMcpManagementService.install svcInstall s server options).1 =
        .error .noManagementServiceForResource) ∧
    (∀ r, options.bind (fun o => o.mcpResource) = some r →
      s.registered r = true →
      (WorkspaceMcpManagementService.install svcInstall s server options).1 =
        svcInstall r server) := by
  refine ⟨?_, ?_, ?_, ?_⟩
  · unfold WorkspaceMcpManagementService.install
    rcases hopt : options.bind (fun o => o.mcpResource) with _ | r
    · simp [hopt]
    · by_cases hr : s.registered r = true <;> simp [hopt, hr]
  · intro h
    simp [WorkspaceMcpManagementService.install, h]
  · intro r h hr
    simp [WorkspaceMcpManagementService.install, h, hr]
  · intro r h hr
    simp [WorkspaceMcpManagementService.install, h, hr]

/-- C5 witness: the three routing outcomes at concrete inputs. -/
theorem workspaceInstall_routing_witness :
    (WorkspaceMcpManagementService.install (fun r n => .ok ⟨n, r⟩)
        { allMcpServers := [], workspaceMcpManagementServices := [("R", [])] }
        "srv" none).1 = .error .mcpResourceRequired ∧
    (WorkspaceMcpManagementService.install (fun r n => .ok ⟨n, r⟩)
        { allMcpServers := [], workspaceMcpManagementServices := [("R", [])] }
        "srv" (some ⟨some "X"⟩)).1 = .error .noManagementServiceForResource ∧
    (WorkspaceMcpManagementService.install (fun r n => .ok ⟨n, r⟩)
        { allMcpServers := [], workspaceMcpManagementServices := [("R", [])] }
        "srv" (some ⟨some "R"⟩)).1 = .ok ⟨"srv", "R"⟩ := by
  refine ⟨?_, ?_, ?_⟩
  · exact (workspaceInstall_routing _ _ _ _).2.1 rfl
  · exact (workspaceInstall_routing _ _ _ _).2.2.1 "X" rfl (by decide)
  · exact (workspaceInstall_routing _ _ _ _).2.2.2 "R" rfl (by decide)

/-- A failing remove emits either only the entry deletion or nothing. -/
theorem mcpRemove_actions_fail (env : URI → List String)
    (s : WorkspaceState) (r : URI) :
    (removeWorkspaceService env s r false).2 = [WorkspaceAction.deleteEntry r] ∨
    (removeWorkspaceService env s r false).2 = [] := by
  unfold removeWorkspaceService
  by_cases h : s.registered r = true
  · rw [if_pos h]
    left
    simp
  · rw [if_neg h]
    right
    rfl

/-- C7: fetch failures during folder registration or deregistration are
caught and treated as zero servers for that resource, and the rest of the
batch still completes: a failing add merges nothing, emits nothing and
still registers the entry; a failing remove drains nothing, emits no
uninstall event and still drops the entry; and after a whole folder-change
batch every added resource ends registered and every removed resource not
also re-added ends unregistered, whatever the fetch outcomes. The batch
handler is a total function, modelling that the call itself never
rejects. -/
theorem folderBatch_partialFailure (env : URI → List String)
    (s : WorkspaceState) (removed added : List (URI × Bool)) (r : URI) :
    ((addWorkspaceService env s r false).1.allMcpServers = s.allMcpServers ∧
     (addWorkspaceService env s r false).2 = [] ∧
     (addWorkspaceService env s r false).1.registered r = true) ∧
    ((removeWorkspaceService env s r false).1.allMcpServers = s.allMcpServers ∧
     (∀ a ∈ (removeWorkspaceService env s r false).2,
        ∀ n m, a ≠ WorkspaceAction.didUninstall n m) ∧
     (removeWorkspaceService env s r false).1.registered r = false) ∧
    (∀ p ∈ added,
      (onDidChangeWorkspaceFolders env s removed added).registered p.1 = true) ∧
    (∀ p ∈ removed, (∀ q ∈ added, q.1 ≠ p.1) →
      (onDidChangeWorkspaceFolders env s removed added).registered p.1 =
        false) := by
  refine ⟨⟨mcpAdd_allMcpServers_fail env s r, mcpAdd_actions_fail env s r, ?_⟩,
    ⟨mcpRemove_allMcpServers_fail env s r, ?_, ?_⟩, ?_, ?_⟩
  · exact (mcpRegistered_add env s r false r).2 (Or.inr rfl)
  · intro a ha n m
    rcases mcpRemove_actions_fail env s r with he | he
    · rw [he] at ha
      rcases List.mem_singleton.1 ha with rfl
      intro hc
      exact WorkspaceAction.noConfusion hc
    · rw [he] at ha
      exact absurd ha (List.not_mem_nil a)
  · cases hb : (removeWorkspaceService env s r false).1.registered r
    · rfl
    · exact absurd rfl ((mcpRegistered_remove env s r false r).1 hb).2
  · intro p hp
    unfold onDidChangeWorkspaceFolders
    exact (mcpAddFold_registered env added _ p.1).2
      (Or.inr (List.mem_map_of_mem _ hp))
  · intro p hp hq
    have hne : ¬((onDidChangeWorkspaceFolders env s removed added).registered
        p.1 = true) := by
      intro hb
      unfold onDidChangeWorkspaceFolders at hb
      rcases (mcpAddFold_registered env added _ p.1).1 hb with hb1 | hb1
      · exact ((mcpRemoveFold_registered env removed s p.1).1 hb1).2
          (List.mem_map_of_mem _ hp)
      · rcases List.mem_map.1 hb1 with ⟨q, hq2, hq3⟩
        exact hq q hq2 hq3
    cases hb : (onDidChangeWorkspaceFolders env s removed added).registered p.1
    · rfl
    · exact absurd hb hne

/-- C7 witness: a batch removing an unregistered resource with a failing
fetch and adding another resource still registers the added resource and
leaves the removed one unregistered. -/
theorem folderBatch_partialFailure_witness :
    (onDidChangeWorkspaceFolders (fun _ => ["a"])
        { allMcpServers := [], workspaceMcpManagementServices := [] }
        [("B", false)] [("A", true)]).registered "A" = true ∧
    (onDidChangeWorkspaceFolders (fun _ => ["a"])
        { allMcpServers := [], workspaceMcpManagementServices := [] }
        [("B", false)] [("A", true)]).registered "B" = false := by
  refine ⟨?_, ?_⟩
  · exact (folderBatch_partialFailure (fun _ => ["a"])
      { allMcpServers := [], workspaceMcpManagementServices := [] }
      [("B", false)] [("A", true)] "A").2.2.1 ("A", true) (by simp)
  · exact (folderBatch_partialFailure (fun _ => ["a"])
      { allMcpServers := [], workspaceMcpManagementServices := [] }
      [("B", false)] [("A", true)] "B").2.2.2 ("B", false) (by simp) (by decide)

/-- A successful add on an unregistered resource appends the fetched
servers to the aggregate list. -/
theorem mcpAdd_allMcpServers_ok (env : URI → List String)
    (s : WorkspaceState) (r : URI) (h : ¬ s.registered r = true) :
    (addWorkspaceService env s r true).1.allMcpServers =
      s.allMcpServers ++
        WorkspaceMcpResourceManagementService.getInstalled env r := by
  unfold addWorkspaceService
  rw [if_neg h]
  simp

/-- A successful remove on a registered resource filters the aggregate list
by the resources of the freshly fetched servers. -/
theorem mcpRemove_allMcpServers_ok (env : URI → List String)
    (s : WorkspaceState) (r : URI) (h : s.registered r = true) :
    (removeWorkspaceService env s r true).1.allMcpServers =
      s.allMcpServers.filter fun server =>
        !((WorkspaceMcpResourceManagementService.getInstalled env r).any
          fun u => u.mcpResource == server.mcpResource) := by
  unfold removeWorkspaceService
  rw [if_pos h]
  simp

/-- The removal filter predicate: a fetched set matches a server exactly
when the fetch was nonempty and the server belongs to the fetched
resource. -/
theorem mcpAnyTagged (env : URI → List String) (r : URI)
    (sv : LocalMcpServer) :
    ((WorkspaceMcpResourceManagementService.getInstalled env r).any
      fun u => u.mcpResource == sv.mcpResource) =
      (!(env r).isEmpty && (r == sv.mcpResource)) := by
  unfold WorkspaceMcpResourceManagementService.getInstalled
  generalize env r = l
  induction l with
  | nil => rfl
  | cons a t ih =>
    cases hb : (r == sv.mcpResource) <;> simp_all

/-- Filtering the flattened registry by a resource key equals flattening
the registry with that key dropped, when every entry owns only servers of
its key. -/
theorem mcpFlatMapFilter_ne (r : URI)
    (reg : List (URI × List LocalMcpServer))
    (hwf : ∀ e ∈ reg, ∀ sv ∈ e.2, sv.mcpResource = e.1) :
    (reg.flatMap (fun e => e.2)).filter
        (fun sv => !(r == sv.mcpResource)) =
      (reg.filter (fun e => !(e.1 == r))).flatMap (fun e => e.2) := by
  induction reg with
  | nil => rfl
  | cons e t ih =>
    have hwfh : ∀ sv ∈ e.2, sv.mcpResource = e.1 :=
      hwf e (List.mem_cons_self e t)
    have hwft : ∀ e2 ∈ t, ∀ sv ∈ e2.2, sv.mcpResource = e2.1 :=
      fun e2 he2 => hwf e2 (List.mem_cons_of_mem e he2)
    rw [List.flatMap_cons, List.filter_append, ih hwft]
    by_cases hk : e.1 = r
    · have hblock : e.2.filter (fun sv => !(r == sv.mcpResource)) = [] := by
        rw [List.filter_eq_nil_iff]
        intro sv hsv
        simp [hwfh sv hsv, hk]
      rw [hblock]
      simp [hk]
    · have hblock : e.2.filter (fun sv => !(r == sv.mcpResource)) = e.2 := by
        rw [List.filter_eq_self]
        intro sv hsv
        have h2 := hwfh sv hsv
        simp only [h2, Bool.not_eq_eq_eq_not, Bool.not_false]
        exact beq_eq_false_iff_ne.2 fun hc => hk hc.symm
      rw [hblock]
      simp [hk]

/-- Dropping a key whose entries all hold empty server lists does not
change the flattened registry. -/
theorem mcpFlatMapFilter_empty (r : URI)
    (reg : List (URI × List LocalMcpServer))
    (hempty : ∀ e ∈ reg, e.1 = r → e.2 = []) :
    (reg.filter (fun e => !(e.1 == r))).flatMap (fun e => e.2) =
      reg.flatMap (fun e => e.2) := by
  induction reg with
  | nil => rfl
  | cons e t ih =>
    have htail := fun e2 he2 => hempty e2 (List.mem_cons_of_mem e he2)
    by_cases hk : e.1 = r
    · have hb := hempty e (List.mem_cons_self e t) hk
      simp [hk, hb, ih htail]
    · simp [hk, ih htail]

/-- Every last-known set of a well-formed registry holds only servers of
its entry key. -/
theorem mcpLastKnown_resourceWf (env : URI → List String)
    (reg : List (URI × List LocalMcpServer))
    (h3 : ∀ e ∈ reg, e.2 = [] ∨
      e.2 = WorkspaceMcpResourceManagementService.getInstalled env e.1) :
    ∀ e ∈ reg, ∀ sv ∈ e.2, sv.mcpResource = e.1 := by
  intro e he sv hsv
  rcases h3 e he with hb | hb
  · rw [hb] at hsv
    exact absurd hsv (List.not_mem_nil sv)
  · rw [hb] at hsv
    unfold WorkspaceMcpResourceManagementService.getInstalled at hsv
    rcases List.mem_map.1 hsv with ⟨n, _, rfl⟩
    rfl

/-- Every last-known set of a well-formed registry has pairwise distinct
names when the persisted environment does. -/
theorem mcpLastKnown_namesNodup (env : URI → List String)
    (reg : List (URI × List LocalMcpServer))
    (henv : ∀ r, (env r).Nodup)
    (h3 : ∀ e ∈ reg, e.2 = [] ∨
      e.2 = WorkspaceMcpResourceManagementService.getInstalled env e.1) :
    ∀ e ∈ reg, (e.2.map (fun sv => sv.name)).Nodup := by
  intro e he
  rcases h3 e he with hb | hb
  · rw [hb]
    simp
  · rw [hb]
    unfold WorkspaceMcpResourceManagementService.getInstalled
    rw [List.map_map]
    simpa [Function.comp_def] using henv e.1

/-- addWorkspaceService preserves the aggregator invariant. -/
theorem mcpInv_add (env : URI → List String) (s : WorkspaceState)
    (r : URI) (ok : Bool) (h : WorkspaceInv env s) :
    WorkspaceInv env (addWorkspaceService env s r ok).1 := by
  obtain ⟨h1, h2, h3⟩ := h
  by_cases hreg : s.registered r = true
  · have hs : addWorkspaceService env s r ok = (s, []) := by
      unfold addWorkspaceService
      rw [if_pos hreg]
    rw [hs]
    exact ⟨h1, h2, h3⟩
  · have hkeys : r ∉ s.workspaceMcpManagementServices.map (fun e => e.1) := by
      intro hmem
      rcases List.mem_map.1 hmem with ⟨⟨k, l⟩, he, hfst⟩
      exact hreg ((mcpRegistered_iff s r).2 ⟨l, by cases hfst; exact he⟩)
    have hkeysNodup : ((s.workspaceMcpManagementServices ++
        [(r, if ok then WorkspaceMcpResourceManagementService.getInstalled env r
          else [])]).map (fun e => e.1)).Nodup := by
      rw [List.map_append]
      refine List.Nodup.append h2 (by simp) ?_
      intro a ha hb
      simp only [List.map_cons, List.map_nil, List.mem_singleton] at hb
      subst hb
      exact hkeys ha
    have hlast : ∀ e ∈ s.workspaceMcpManagementServices ++
        [(r, if ok then WorkspaceMcpResourceManagementService.getInstalled env r
          else [])],
        e.2 = [] ∨
        e.2 = WorkspaceMcpResourceManagementService.getInstalled env e.1 := by
      intro e he
      rcases List.mem_append.1 he with he1 | he1
      · exact h3 e he1
      · rcases List.mem_singleton.1 he1 with rfl
        cases ok
        · exact Or.inl (by simp)
        · exact Or.inr (by simp)
    unfold WorkspaceInv
    rw [mcpAdd_services, if_neg hreg]
    refine ⟨?_, hkeysNodup, hlast⟩
    cases ok
    · rw [mcpAdd_allMcpServers_fail]
      rw [List.flatMap_append, h1]
      simp
    · rw [mcpAdd_allMcpServers_ok env s r hreg]
      rw [List.flatMap_append, h1]
      simp

/-- A successful removeWorkspaceService preserves the aggregator
invariant. -/
theorem mcpInv_remove (env : URI → List String) (s : WorkspaceState)
    (r : URI) (h : WorkspaceInv env s) :
    WorkspaceInv env (removeWorkspaceService env s r true).1 := by
  obtain ⟨h1, h2, h3⟩ := h
  by_cases hreg : s.registered r = true
  case neg =>
    have hs : removeWorkspaceService env s r true = (s, []) := by
      unfold removeWorkspaceService
      rw [if_neg hreg]
    rw [hs]
    exact ⟨h1, h2, h3⟩
  case pos =>
    have hwf := mcpLastKnown_resourceWf env s.workspaceMcpManagementServices h3
    unfold WorkspaceInv
    rw [mcpRemove_services, if_pos hreg,
      mcpRemove_allMcpServers_ok env s r hreg]
    refine ⟨?_, ?_, ?_⟩
    · rw [h1]
      by_cases hempty : (env r).isEmpty = true
      · rw [List.filter_eq_self.2 ?_]
        · refine (mcpFlatMapFilter_empty r _ ?_).symm
          intro e he hk
          rcases h3 e he with hb | hb
          · exact hb
          · rw [hb, hk]
            unfold WorkspaceMcpResourceManagementService.getInstalled
            rw [List.isEmpty_iff] at hempty
            rw [hempty]
            rfl
        · intro sv hsv
          rw [mcpAnyTagged env r sv]
          simp [hempty]
      · have hpred : (fun server : LocalMcpServer =>
            !((WorkspaceMcpResourceManagementService.getInstalled env r).any
              fun u => u.mcpResource == server.mcpResource)) =
            (fun server => !(r == server.mcpResource)) := by
          funext sv
          rw [mcpAnyTagged env r sv]
          simp [hempty]
        rw [hpred, mcpFlatMapFilter_ne r _ hwf]
    · exact h2.sublist (List.Sublist.map _ (List.filter_sublist _))
    · intro e he
      exact h3 e (List.mem_filter.1 he).1

/-- The aggregator invariant holds along every event sequence whose
removal-time fetches succeed. -/
theorem mcpInv_fold (env : URI → List String) (events : List FolderEvent)
    (s : WorkspaceState) (h : WorkspaceInv env s)
    (hok : ∀ e ∈ events, e.removeFetchOk = true) :
    WorkspaceInv env (events.foldl (folderStep env) s) := by
  induction events generalizing s with
  | nil => exact h
  | cons e t ih =>
    rw [List.foldl_cons]
    refine ih _ ?_ (fun x hx => hok x (List.mem_cons_of_mem e hx))
    rcases e with ⟨r, ok⟩ | ⟨r, ok⟩
    · exact mcpInv_add env s r ok h
    · have hoke := hok (.remove r ok) (List.mem_cons_self _ _)
      simp only [FolderEvent.removeFetchOk] at hoke
      subst hoke
      exact mcpInv_remove env s r h

/-- A registry with distinct keys, resource-homogeneous entries and
per-entry distinct names flattens to a list without duplicate
(mcpResource, name) pairs. -/
theorem mcpNodupPairs (reg : List (URI × List LocalMcpServer))
    (hkeys : (reg.map (fun e => e.1)).Nodup)
    (hwf : ∀ e ∈ reg, ∀ sv ∈ e.2, sv.mcpResource = e.1)
    (hnames : ∀ e ∈ reg, (e.2.map (fun sv => sv.name)).Nodup) :
    ((reg.flatMap (fun e => e.2)).map serverKey).Nodup := by
  induction reg with
  | nil => simp
  | cons e t ih =>
    rw [List.flatMap_cons, List.map_append]
    have hkt : (t.map (fun x => x.1)).Nodup :=
      (List.nodup_cons.1 (by simpa using hkeys)).2
    have hheadNe : e.1 ∉ t.map (fun x => x.1) :=
      (List.nodup_cons.1 (by simpa using hkeys)).1
    refine List.Nodup.append ?_
      (ih hkt (fun x hx => hwf x (List.mem_cons_of_mem _ hx))
        (fun x hx => hnames x (List.mem_cons_of_mem _ hx))) ?_
    · have h1 := hnames e (List.mem_cons_self e t)
      have hsnd : ((e.2.map serverKey).map Prod.snd).Nodup := by
        rw [List.map_map]
        simpa [serverKey, Function.comp] using h1
      exact hsnd.of_map
    · intro a ha hb
      rcases List.mem_map.1 ha with ⟨sv, hsv, rfl⟩
      rcases List.mem_map.1 hb with ⟨sv2, hsv2, hkey⟩
      rcases List.mem_flatMap.1 hsv2 with ⟨e2, he2, hsv2e⟩
      have hr1 : sv.mcpResource = e.1 :=
        hwf e (List.mem_cons_self e t) sv hsv
      have hr2 : sv2.mcpResource = e2.1 :=
        hwf e2 (List.mem_cons_of_mem _ he2) sv2 hsv2e
      have hk : e2.1 = e.1 := by
        have hf := congrArg Prod.fst hkey
        simpa [serverKey, hr1, hr2] using hf
      exact hheadNe (hk ▸ List.mem_map_of_mem (fun x => x.1) he2)

/-- C1 (amended): over every sequence of workspace folder add and remove
events in which every removal-time fetch succeeds, and with each
per-resource service reporting a duplicate-free name list, the workspace
aggregator getInstalled list equals the union — the registry-ordered
concatenation — of the last-known installed sets of all
currently-registered per-resource services, and holds no two entries with
the same (mcpResource, name) pair. The removal-fetch success condition is
forced by the counterexample: a failing removal-time fetch drops the
registry entry while the servers fetched at registration stay in the
list. -/
theorem workspaceAggregator_union_invariant (env : URI → List String)
    (events : List FolderEvent)
    (henv : ∀ r, (env r).Nodup)
    (hok : ∀ e ∈ events, e.removeFetchOk = true) :
    WorkspaceMcpManagementService.getInstalled (runFolderEvents env events) =
      (runFolderEvents env events).workspaceMcpManagementServices.flatMap
        (fun e => e.2) ∧
    ((runFolderEvents env events).allMcpServers.map serverKey).Nodup := by
  have hinv : WorkspaceInv env (runFolderEvents env events) := by
    refine mcpInv_fold env events _ ?_ hok
    exact ⟨rfl, List.nodup_nil, fun e he => absurd he (List.not_mem_nil e)⟩
  obtain ⟨h1, h2, h3⟩ := hinv
  refine ⟨h1, ?_⟩
  rw [h1]
  exact mcpNodupPairs _ h2
    (mcpLastKnown_resourceWf env _ h3)
    (mcpLastKnown_namesNodup env _ henv h3)

/-- C1 witness: one added folder with one installed server satisfies the
invariant. -/
theorem workspaceAggregator_union_invariant_witness :
    WorkspaceMcpManagementService.getInstalled
        (runFolderEvents (fun _ => ["a"]) [FolderEvent.add "R" true]) =
      (runFolderEvents (fun _ => ["a"])
          [FolderEvent.add "R" true]).workspaceMcpManagementServices.flatMap
        (fun e => e.2) ∧
    ((runFolderEvents (fun _ => ["a"])
        [FolderEvent.add "R" true]).allMcpServers.map serverKey).Nodup :=
  workspaceAggregator_union_invariant (fun _ => ["a"])
    [FolderEvent.add "R" true] (fun _ => by simp) (by decide)

/-- C1 counterexample: after adding resource R holding one server and then
removing R with a failing removal-time fetch, the registry entry is gone
while the server stays listed, so the getInstalled list differs from the
union of the currently-registered last-known installed sets; the claim as
stated, quantified over all folder add and remove event sequences, is
false. -/
theorem workspaceAggregator_union_counterexample :
    ¬ (WorkspaceMcpManagementService.getInstalled
          (runFolderEvents (fun r => if r = "R" then ["a"] else [])
            [FolderEvent.add "R" true, FolderEvent.remove "R" false]) =
        (runFolderEvents (fun r => if r = "R" then ["a"] else [])
            [FolderEvent.add "R" true,
             FolderEvent.remove "R" false]).workspaceMcpManagementServices.flatMap
          (fun e => e.2) ∧
      ((runFolderEvents (fun r => if r = "R" then ["a"] else [])
          [FolderEvent.add "R" true,
           FolderEvent.remove "R" false]).allMcpServers.map serverKey).Nodup) := by
  decide

/-- C3 witness: the concatenation and tagging at concrete scope results. -/
theorem workbenchGetInstalled_concat_and_scopes_witness :
    WorkbenchMcpManagementService.getInstalled [⟨"u", "U"⟩]
        (some [⟨"r", "Rm"⟩]) [⟨"w", "W"⟩] =
      [⟨"u", "U", .user⟩, ⟨"r", "Rm", .remoteUser⟩, ⟨"w", "W", .workspace⟩] ∧
    (toWorkspaceMcpServer ⟨"u", "U"⟩ .user).scope = .user := by
  have h := workbenchGetInstalled_concat_and_scopes [⟨"u", "U"⟩]
    (some [⟨"r", "Rm"⟩]) [⟨"w", "W"⟩]
  exact ⟨by simpa [toWorkspaceMcpServer] using h.1,
    h.2.1 (toWorkspaceMcpServer ⟨"u", "U"⟩ .user) (by simp)⟩

/-- C9 witness: the Not supported rejection at the empty aggregator
state. -/
theorem workspaceInstallFromGallery_notSupported_witness :
    WorkspaceMcpManagementService.installFromGallery
        { allMcpServers := [], workspaceMcpManagementServices := [] } =
      (Except.error McpError.notSupported,
        ({ allMcpServers := [],
           workspaceMcpManagementServices := [] } : WorkspaceState)) :=
  (workspaceInstallFromGallery_notSupported
    { allMcpServers := [], workspaceMcpManagementServices := [] }).2
